import Mathlib

/-!
# Verification of the AwsGameKit Unreal threaded-action bridge and session-manager wrapper

Shallow embedding of the two headers of the repository:

* `AwsGameKitRuntime/Public/Common/AwsGameKitBlueprintCommon.h` — the latent
  threaded-action bridge (`TAwsGameKitInternalThreadedAction`), its shared
  action state, partial-result queueing and dispatch, and the persistent-frame
  output-reference guard `InternalAwsGameKitThreadedActionSafeOutputRef`.
* `AwsGameKitRuntime/Public/SessionManager/AwsGameKitSessionManagerWrapper.h` —
  per-platform library basename resolution and the table of native
  function-pointer handles.

Machine state that the C++ mutates in place (the shared
`TAwsGameKitInternalActionState`, the output slots bound by reference) is
passed explicitly.  Side effects that cross to the host engine (delegate
`Execute` calls, output writes, `FinishAndTriggerIf`) are reified as an event
trace so that ordering claims can be stated.  Fatal `check(...)` assertions are
modelled as `Except` errors.
-/

namespace AwsGameKit

/-- Modelled from the spec: the success status code defined in
`AwsGameKitErrors.h` (that header is not part of this excerpt).  The bridge
code only compares a stored status against this constant, so no claim below
depends on its numeric value. -/
def GAMEKIT_SUCCESS : Nat := 0

/-- `FAwsGameKitOperationResult`: an operation-result value carrying a status
code (field `Status`). -/
structure FAwsGameKitOperationResult where
  Status : Nat
  deriving Repr, DecidableEq, Inhabited

/-- `EAwsGameKitSuccessOrFailureExecutionPin` from `AwsGameKitBlueprintCommon.h`. -/
inductive EAwsGameKitSuccessOrFailureExecutionPin
  | OnSuccess
  | OnFailure
  deriving Repr, DecidableEq, Inhabited

/-- `TAwsGameKitInternalActionState<ResultType>`: the shared heap-allocated
state bridging the background task and the poller.  `TQueue<ResultType>` is a
FIFO queue, embedded as a `List` (head = front); `TOptional` is `Option`. -/
structure TAwsGameKitInternalActionState (α : Type) where
  Err : FAwsGameKitOperationResult
  Results : α
  PartialResultsQueue : Option (List α)
  deriving Repr, DecidableEq, Inhabited

/-- The partial-results delegate parameter of the action template.
`noop` is the `FNoopStruct` specialization (the statically chosen no-op
overloads); `delegate b` is a real delegate whose `IsBound()` returns `b`.
The delegate is copied into the action at construction, so its boundness is
fixed for the lifetime of the action, as in the C++. -/
inductive PartialResultsDelegate
  | noop
  | delegate (bound : Bool)
  deriving Repr, DecidableEq, Inhabited

/-- `Delegate.IsBound()`; the `FNoopStruct` stand-in has no binding. -/
def PartialResultsDelegate.IsBound : PartialResultsDelegate → Bool
  | .noop => false
  | .delegate b => b

/-- The `TAwsGameKitInternalThreadedAction` object: the shared threaded state,
the captured request, the three output slots (bound by reference in C++,
carried as values here so that writes are explicit), the stored delegate copy,
and validity of the `TFuture` handle `ThreadedResult` (`IsValid()`). -/
structure ThreadedAction (ρ α : Type) where
  ThreadedState : TAwsGameKitInternalActionState α
  InRequest : ρ
  OutSuccessOrFailure : EAwsGameKitSuccessOrFailureExecutionPin
  OutResults : α
  OutStatus : FAwsGameKitOperationResult
  PartialResultsDelegate : PartialResultsDelegate
  ThreadedResultValid : Bool
  deriving Repr, DecidableEq

/-- Fatal `check(...)` assertions of the bridge, modelled as errors:
`check(ThreadedResult.IsValid())` in `UpdateOperation` and
`check(ThreadedState->PartialResultsQueue)` in `DispatchPartialResults`. -/
inductive CheckFailure
  | invalidThreadedResult
  | missingPartialResultsQueue
  deriving Repr, DecidableEq

/-- `InitializePartialResultQueue`: the `FNoopStruct` overload does nothing;
the delegate overload runs `PartialResultsQueue.Emplace()` iff
`Delegate.IsBound()`. -/
def InitializePartialResultQueue (d : PartialResultsDelegate)
    (st : TAwsGameKitInternalActionState α) : TAwsGameKitInternalActionState α :=
  match d with
  | .noop => st
  | .delegate bound =>
    if bound then { st with PartialResultsQueue := some [] } else st

/-- The background worker streaming one partial result into
`ThreadedState->PartialResultsQueue` "if it is a valid object" (the lambda
contract documented on `LaunchThreadedWork`). -/
def enqueuePartialResult (st : TAwsGameKitInternalActionState α) (x : α) :
    TAwsGameKitInternalActionState α :=
  match st.PartialResultsQueue with
  | some q => { st with PartialResultsQueue := some (q ++ [x]) }
  | none => st

/-- The dequeue loop of `DispatchPartialResults`: repeatedly `Dequeue` into
`TempResults`; after each dequeue, `bFinalInvoke = bThreadComplete &&
Queue->IsEmpty()`.  Returns the list of `(TempResults, bFinalInvoke)`
arguments passed to `Delegate.Execute`, paired with the accumulated
`bInvokedWithFinal`. -/
def drainQueue (bThreadComplete : Bool) : List α → List (α × Bool) × Bool
  | [] => ([], false)
  | x :: rest =>
    let bFinalInvoke := bThreadComplete && rest.isEmpty
    let p := drainQueue bThreadComplete rest
    ((x, bFinalInvoke) :: p.1, bFinalInvoke || p.2)

/-- `DispatchPartialResults(Delegate, bThreadComplete)`: the `FNoopStruct`
overload is a no-op; the delegate overload returns early when unbound, checks
the queue exists (fatal otherwise), drains it delivering each element, and if
the thread is complete but no delivery carried the final flag, makes one extra
delivery of a default-constructed result with the final flag set.  Returns the
`Execute` argument list and the updated state (queue fully drained). -/
def DispatchPartialResults [Inhabited α] (d : PartialResultsDelegate)
    (bThreadComplete : Bool) (st : TAwsGameKitInternalActionState α) :
    Except CheckFailure (List (α × Bool) × TAwsGameKitInternalActionState α) :=
  match d with
  | .noop => .ok ([], st)
  | .delegate bound =>
    if !bound then .ok ([], st)
    else
      match st.PartialResultsQueue with
      | none => .error .missingPartialResultsQueue
      | some q =>
        let p := drainQueue bThreadComplete q
        let invs := if bThreadComplete && !p.2 then p.1 ++ [(default, true)] else p.1
        .ok (invs, { st with PartialResultsQueue := some [] })

/-- One observable step of a poll, in the order the C++ performs it:
delegate `Execute(InRequest, TempResults, bFinalInvoke)` calls, the three
output-slot writes, and the `Response.FinishAndTriggerIf` signal to the host
latent-action manager. -/
inductive PollEvent (ρ α : Type)
  | execute (request : ρ) (results : α) (bFinalInvoke : Bool)
  | writeOutResults (v : α)
  | writeOutStatus (s : FAwsGameKitOperationResult)
  | writeOutSuccessOrFailure (p : EAwsGameKitSuccessOrFailureExecutionPin)
  | finishAndTriggerIf (b : Bool)
  deriving Repr, DecidableEq

/-- The pin selection of `UpdateOperation`:
`Err.Status == GameKit::GAMEKIT_SUCCESS ? OnSuccess : OnFailure`. -/
def successOrFailurePin (err : FAwsGameKitOperationResult) :
    EAwsGameKitSuccessOrFailureExecutionPin :=
  if err.Status = GAMEKIT_SUCCESS then .OnSuccess else .OnFailure

/-- `UpdateOperation(Response)`, with `isReady = ThreadedResult.IsReady()`.
First `check(ThreadedResult.IsValid())`.  If ready: dispatch partial results
with `bThreadComplete = true`, move the final results into `OutResults`, copy
`Err` into `OutStatus`, select the success/failure pin, and signal
`FinishAndTriggerIf(true)`.  If not ready: dispatch partial results with
`bThreadComplete = false` and nothing else.  Returns the event trace and the
updated action. -/
def UpdateOperation [Inhabited α] (isReady : Bool) (a : ThreadedAction ρ α) :
    Except CheckFailure (List (PollEvent ρ α) × ThreadedAction ρ α) :=
  if a.ThreadedResultValid = false then .error .invalidThreadedResult
  else if isReady then
    match DispatchPartialResults a.PartialResultsDelegate true a.ThreadedState with
    | .error e => .error e
    | .ok (invs, st) =>
      .ok (invs.map (fun p => PollEvent.execute a.InRequest p.1 p.2) ++
            [PollEvent.writeOutResults a.ThreadedState.Results,
             PollEvent.writeOutStatus a.ThreadedState.Err,
             PollEvent.writeOutSuccessOrFailure (successOrFailurePin a.ThreadedState.Err),
             PollEvent.finishAndTriggerIf true],
          { a with ThreadedState := st,
                   OutResults := a.ThreadedState.Results,
                   OutStatus := a.ThreadedState.Err,
                   OutSuccessOrFailure := successOrFailurePin a.ThreadedState.Err })
  else
    match DispatchPartialResults a.PartialResultsDelegate false a.ThreadedState with
    | .error e => .error e
    | .ok (invs, st) =>
      .ok (invs.map (fun p => PollEvent.execute a.InRequest p.1 p.2),
          { a with ThreadedState := st })

/-- The action constructor: allocates the shared state (default `Err` and
`Results`, no queue), captures the request and the delegate copy, and runs
`InitializePartialResultQueue(PartialResultsDelegate)`.  The `TFuture` handle
is not valid until `LaunchThreadedWork`. -/
def mkThreadedAction [Inhabited α] (request : ρ) (d : PartialResultsDelegate) :
    ThreadedAction ρ α :=
  { ThreadedState :=
      InitializePartialResultQueue d
        { Err := default, Results := default, PartialResultsQueue := none },
    InRequest := request,
    OutSuccessOrFailure := default,
    OutResults := default,
    OutStatus := default,
    PartialResultsDelegate := d,
    ThreadedResultValid := false }

/-- `LaunchThreadedWork`: starts the async task, making `ThreadedResult` a
valid future handle. -/
def LaunchThreadedWork (a : ThreadedAction ρ α) : ThreadedAction ρ α :=
  { a with ThreadedResultValid := true }

/-! ## Run model

The host's latent-action manager polls `UpdateOperation` once per frame until
the action reports completion via `FinishAndTriggerIf(true)`, after which the
action is removed and never polled again (the latent-action contract).  The
single background worker runs to completion exactly once; between two polls it
may enqueue partial results and may finish, filling `Err` and `Results` before
the future becomes ready. -/

/-- Background-thread activity between two polls: partial results streamed
into the queue, and optionally the completion of the task with its final
error/result values (after which `ThreadedResult.IsReady()` is true). -/
structure Frame (α : Type) where
  enqueues : List α
  complete : Option (FAwsGameKitOperationResult × α)
  deriving Repr, DecidableEq

/-- Apply one frame's background-thread activity to the shared state. -/
def applyFrameBackground (st : TAwsGameKitInternalActionState α) (f : Frame α) :
    TAwsGameKitInternalActionState α :=
  let st1 := f.enqueues.foldl enqueuePartialResult st
  match f.complete with
  | some er => { st1 with Err := er.1, Results := er.2 }
  | none => st1

/-- Poll the action once per frame, as the latent-action manager does.  The
`ready` flag records whether the background task has already completed (a
future, once ready, stays ready).  A poll that sees the task ready finishes
the action and removes it: later frames are not polled.  Returns the combined
event trace, the final action, and whether the action completed. -/
def runFrames [Inhabited α] (a : ThreadedAction ρ α) (ready : Bool) :
    List (Frame α) → Except CheckFailure (List (PollEvent ρ α) × ThreadedAction ρ α × Bool)
  | [] => .ok ([], a, false)
  | f :: rest =>
    let isReady := ready || f.complete.isSome
    let a1 := { a with ThreadedState := applyFrameBackground a.ThreadedState f }
    match UpdateOperation isReady a1 with
    | .error e => .error e
    | .ok (evs, a2) =>
      if isReady then .ok (evs, a2, true)
      else
        match runFrames a2 isReady rest with
        | .error e => .error e
        | .ok (evs2, a3, fin) => .ok (evs ++ evs2, a3, fin)

/-- All incremental results enqueued over a list of frames, in order. -/
def flatEnq (frames : List (Frame α)) : List α :=
  (frames.map Frame.enqueues).flatten

/-- The `(results, bFinalInvoke)` arguments of the delegate `Execute` calls of
a trace, in order. -/
def traceExecutes : List (PollEvent ρ α) → List (α × Bool)
  | [] => []
  | PollEvent.execute _ res b :: rest => (res, b) :: traceExecutes rest
  | _ :: rest => traceExecutes rest

/-- Number of events of a trace satisfying a predicate. -/
def countEvents (p : PollEvent ρ α → Bool) (tr : List (PollEvent ρ α)) : Nat :=
  (tr.filter p).length

def isFinishEvent : PollEvent ρ α → Bool
  | .finishAndTriggerIf _ => true
  | _ => false

def isWriteResultsEvent : PollEvent ρ α → Bool
  | .writeOutResults _ => true
  | _ => false

def isWriteStatusEvent : PollEvent ρ α → Bool
  | .writeOutStatus _ => true
  | _ => false

def isWritePinEvent : PollEvent ρ α → Bool
  | .writeOutSuccessOrFailure _ => true
  | _ => false

/-- The `Execute` argument list produced by one `DispatchPartialResults` call
on a queue holding `q`, extracted for stating the claims: nothing when the
delegate is not bound; otherwise the drained queue with the final flag on the
last element iff the thread is complete, plus the extra default-constructed
final delivery when the thread is complete and no drained element carried the
flag. -/
def dispatchInvocations [Inhabited α] (d : PartialResultsDelegate)
    (bThreadComplete : Bool) (q : List α) : List (α × Bool) :=
  if d.IsBound then
    let p := drainQueue bThreadComplete q
    if bThreadComplete && !p.2 then p.1 ++ [(default, true)] else p.1
  else []

/-- The queue contents, empty when no queue was allocated. -/
def currentQueue (st : TAwsGameKitInternalActionState α) : List α :=
  st.PartialResultsQueue.getD []

/-- The action as it stands after the completion poll of a task that finished
with error `e` and results `r`: queue drained (still allocated iff the
delegate is bound), outputs filled, pin selected from the status. -/
def finalActionOf (a : ThreadedAction ρ α) (e : FAwsGameKitOperationResult)
    (r : α) : ThreadedAction ρ α :=
  { a with
    ThreadedState :=
      { Err := e, Results := r,
        PartialResultsQueue :=
          if a.PartialResultsDelegate.IsBound then some [] else none },
    OutResults := r,
    OutStatus := e,
    OutSuccessOrFailure := successOrFailurePin e }

/-! ## Persistent-frame output-reference guard

`InternalAwsGameKitThreadedActionSafeOutputRef` works on addresses; we model
an address as a `Nat` and a memory as a map from addresses to values.  The two
fatal `check(...)` assertions (sane persistent frame; out-of-frame reference
near the current native stack, computed with unsigned wraparound on 64-bit
pointers) are modelled as `none`. -/

/-- The `check` sanity limit: `ExtremelyLargeBPFrameSize = 0x10000000`. -/
def ExtremelyLargeBPFrameSize : Nat := 0x10000000

/-- The `DO_CHECK` proximity limit: `NearbyStackAddressLimit = 16384`. -/
def NearbyStackAddressLimit : Nat := 16384

/-- `InternalAwsGameKitThreadedActionSafeOutputRef`: given the persistent
uber-graph frame start and size, the address of the function-local static junk
variable, the address of a local `stackobj`, and the address of the `OutRef`
argument, return the address writes should be deferred to: `OutRef` itself
when it points into the persistent frame, the static junk variable otherwise.
`none` models a fired `check`. -/
def InternalAwsGameKitThreadedActionSafeOutputRef
    (persistentFrame persistentFrameSize junkAddr stackAddr outAddr : Nat) :
    Option Nat :=
  if persistentFrame ≠ 0 ∧ 0 < persistentFrameSize ∧
      persistentFrameSize < ExtremelyLargeBPFrameSize then
    if persistentFrame ≤ outAddr ∧ outAddr < persistentFrame + persistentFrameSize then
      some outAddr
    else if (outAddr + 2 ^ 64 - stackAddr) % 2 ^ 64 < NearbyStackAddressLimit then
      some junkAddr
    else none
  else none

/-- A store to an address in a flat memory of `Int` cells. -/
def writeMem (mem : Nat → Int) (addr : Nat) (v : Int) : Nat → Int :=
  fun a => if a = addr then v else mem a

/-! ## Session-manager library wrapper -/

/-- The platforms distinguished by the preprocessor in
`AwsGameKitSessionManagerWrapper.h` (`PLATFORM_WINDOWS`, `PLATFORM_MAC`, and
everything else). -/
inductive Platform
  | windows
  | mac
  | linux
  | ios
  | android
  | other
  deriving Repr, DecidableEq

/-- `AwsGameKitSessionManagerWrapper::getLibraryFilename`. -/
def getLibraryFilename : Platform → String
  | .windows => "aws-gamekit-authentication"
  | .mac => "libaws-gamekit-authentication"
  | _ => ""

/-- One native function-pointer handle of the wrapper, as declared by a
`DEFINE_FUNC_HANDLE(ReturnType, Name, (Params))` line.  Modelled from the
spec: the `DEFINE_FUNC_HANDLE` macro (in `AwsGameKitLibraryUtils.h`, not part
of this excerpt) resolves the entry point from the loaded library by its name
with a fixed C calling convention, recorded in the `resolvedByName` and
`callingConvention` fields. -/
structure FunctionPointerHandle where
  returnType : String
  name : String
  parameters : List String
  resolvedByName : Bool
  callingConvention : String
  deriving Repr, DecidableEq

/-- The complete function-pointer handle table of
`AwsGameKitSessionManagerWrapper`, one entry per `DEFINE_FUNC_HANDLE` line of
the class, in declaration order. -/
def sessionManagerFunctionHandles : List FunctionPointerHandle :=
  [{ returnType := "GAMEKIT_SESSION_MANAGER_INSTANCE_HANDLE",
     name := "GameKitSessionManagerInstanceCreate",
     parameters := ["const char* clientConfigFile", "FuncLogCallback logCb"],
     resolvedByName := true, callingConvention := "C" },
   { returnType := "bool",
     name := "GameKitSessionManagerAreSettingsLoaded",
     parameters := ["GAMEKIT_SESSION_MANAGER_INSTANCE_HANDLE sessionManagerInstance",
                    "FeatureType featureType"],
     resolvedByName := true, callingConvention := "C" },
   { returnType := "void",
     name := "GameKitSessionManagerReloadConfigFile",
     parameters := ["GAMEKIT_SESSION_MANAGER_INSTANCE_HANDLE sessionManagerInstance",
                    "const char* clientConfigFile"],
     resolvedByName := true, callingConvention := "C" },
   { returnType := "void",
     name := "GameKitSessionManagerReloadConfigContents",
     parameters := ["GAMEKIT_SESSION_MANAGER_INSTANCE_HANDLE sessionManagerInstance",
                    "const char* clientConfigFileContents"],
     resolvedByName := true, callingConvention := "C" },
   { returnType := "void",
     name := "GameKitSessionManagerSetToken",
     parameters := ["GAMEKIT_SESSION_MANAGER_INSTANCE_HANDLE sessionManagerInstance",
                    "GameKit::TokenType tokenType", "const char* value"],
     resolvedByName := true, callingConvention := "C" },
   { returnType := "void",
     name := "GameKitSessionManagerInstanceRelease",
     parameters := ["GAMEKIT_SESSION_MANAGER_INSTANCE_HANDLE sessionManagerInstance"],
     resolvedByName := true, callingConvention := "C" }]

/-! ## Helper lemmas -/

theorem drainQueue_false (q : List α) :
    drainQueue false q = (q.map (fun x => (x, false)), false) := by
  induction q with
  | nil => rfl
  | cons x rest ih => simp [drainQueue, ih]

theorem drainQueue_true_concat (xs : List α) (y : α) :
    drainQueue true (xs ++ [y]) = (xs.map (fun x => (x, false)) ++ [(y, true)], true) := by
  induction xs with
  | nil => rfl
  | cons x xs ih => simp [drainQueue, ih]

theorem dispatchInvocations_not_bound [Inhabited α] {d : PartialResultsDelegate}
    (h : d.IsBound = false) (c : Bool) (q : List α) :
    dispatchInvocations d c q = [] := by
  simp [dispatchInvocations, h]

theorem dispatchInvocations_false [Inhabited α] (d : PartialResultsDelegate)
    (q : List α) :
    dispatchInvocations d false q =
      if d.IsBound then q.map (fun x => (x, false)) else [] := by
  simp [dispatchInvocations, drainQueue_false]

theorem dispatchInvocations_true_nil [Inhabited α] (d : PartialResultsDelegate)
    (h : d.IsBound = true) :
    dispatchInvocations d true ([] : List α) = [(default, true)] := by
  simp [dispatchInvocations, h, drainQueue]

theorem dispatchInvocations_true_concat [Inhabited α] (d : PartialResultsDelegate)
    (h : d.IsBound = true) (xs : List α) (y : α) :
    dispatchInvocations d true (xs ++ [y]) =
      xs.map (fun x => (x, false)) ++ [(y, true)] := by
  simp [dispatchInvocations, h, drainQueue_true_concat]

theorem DispatchPartialResults_eq [Inhabited α] (d : PartialResultsDelegate)
    (c : Bool) (st : TAwsGameKitInternalActionState α)
    (h : st.PartialResultsQueue.isSome = d.IsBound) :
    DispatchPartialResults d c st =
      .ok (dispatchInvocations d c (currentQueue st),
           { st with PartialResultsQueue :=
               if d.IsBound then some [] else st.PartialResultsQueue }) := by
  cases d with
  | noop =>
    simp [DispatchPartialResults, dispatchInvocations, PartialResultsDelegate.IsBound]
  | delegate b =>
    cases b with
    | false =>
      simp [DispatchPartialResults, dispatchInvocations, PartialResultsDelegate.IsBound]
    | true =>
      obtain ⟨q, hq⟩ := Option.isSome_iff_exists.mp
        (by simpa [PartialResultsDelegate.IsBound] using h)
      simp [DispatchPartialResults, dispatchInvocations,
        PartialResultsDelegate.IsBound, hq, currentQueue]

theorem foldl_enqueuePartialResult (l : List α) :
    ∀ st : TAwsGameKitInternalActionState α,
      l.foldl enqueuePartialResult st =
        { st with PartialResultsQueue :=
            st.PartialResultsQueue.map (fun q => q ++ l) } := by
  induction l with
  | nil =>
    intro st
    cases st with
    | mk e r pq => cases pq <;> simp
  | cons x l ih =>
    intro st
    rw [List.foldl_cons, ih]
    cases st with
    | mk e r pq => cases pq <;> simp [enqueuePartialResult]

theorem UpdateOperation_false_eq [Inhabited α] (a : ThreadedAction ρ α)
    (hv : a.ThreadedResultValid = true)
    (hq : a.ThreadedState.PartialResultsQueue.isSome = a.PartialResultsDelegate.IsBound) :
    UpdateOperation false a =
      .ok ((dispatchInvocations a.PartialResultsDelegate false
              (currentQueue a.ThreadedState)).map
             (fun p => PollEvent.execute a.InRequest p.1 p.2),
           { a with ThreadedState :=
               { a.ThreadedState with PartialResultsQueue :=
                   if a.PartialResultsDelegate.IsBound then some []
                   else a.ThreadedState.PartialResultsQueue } }) := by
  simp [UpdateOperation, hv, DispatchPartialResults_eq _ _ _ hq]

theorem UpdateOperation_true_eq [Inhabited α] (a : ThreadedAction ρ α)
    (hv : a.ThreadedResultValid = true)
    (hq : a.ThreadedState.PartialResultsQueue.isSome = a.PartialResultsDelegate.IsBound) :
    UpdateOperation true a =
      .ok ((dispatchInvocations a.PartialResultsDelegate true
              (currentQueue a.ThreadedState)).map
             (fun p => PollEvent.execute a.InRequest p.1 p.2) ++
           [PollEvent.writeOutResults a.ThreadedState.Results,
            PollEvent.writeOutStatus a.ThreadedState.Err,
            PollEvent.writeOutSuccessOrFailure (successOrFailurePin a.ThreadedState.Err),
            PollEvent.finishAndTriggerIf true],
           { a with
               ThreadedState :=
                 { a.ThreadedState with PartialResultsQueue :=
                     if a.PartialResultsDelegate.IsBound then some []
                     else a.ThreadedState.PartialResultsQueue },
               OutResults := a.ThreadedState.Results,
               OutStatus := a.ThreadedState.Err,
               OutSuccessOrFailure := successOrFailurePin a.ThreadedState.Err }) := by
  simp [UpdateOperation, hv, DispatchPartialResults_eq _ _ _ hq]

theorem flatEnq_nil : flatEnq ([] : List (Frame α)) = [] := rfl

theorem flatEnq_cons (f : Frame α) (fs : List (Frame α)) :
    flatEnq (f :: fs) = f.enqueues ++ flatEnq fs := by
  simp [flatEnq]

/-- Queue shape at a poll boundary: allocated and empty iff the delegate is
bound.  This holds right after construction and is restored by every full
drain of a poll. -/
def initQueueShape (a : ThreadedAction ρ α) : Prop :=
  a.ThreadedState.PartialResultsQueue =
    (if a.PartialResultsDelegate.IsBound then some [] else none)

/-- The complete behaviour of a run: frames `pre` with no completion, then a
frame `f` in which the background task completes with `(e, r)`, then arbitrary
frames `post`.  The run delivers all pre-completion enqueues with the final
flag clear (when the delegate is bound), then performs the completion poll:
remaining enqueues drained, outputs written, scheduler signalled; `post` is
never polled. -/
theorem runFrames_master [Inhabited α] (pre : List (Frame α)) :
    ∀ (a : ThreadedAction ρ α) (f : Frame α) (post : List (Frame α))
      (e : FAwsGameKitOperationResult) (r : α),
      a.ThreadedResultValid = true →
      initQueueShape a →
      (∀ g ∈ pre, g.complete = none) →
      f.complete = some (e, r) →
      runFrames a false (pre ++ f :: post) =
        .ok ((if a.PartialResultsDelegate.IsBound then flatEnq pre else []).map
               (fun x => PollEvent.execute a.InRequest x false) ++
             ((dispatchInvocations a.PartialResultsDelegate true f.enqueues).map
                (fun p => PollEvent.execute a.InRequest p.1 p.2) ++
              [PollEvent.writeOutResults r, PollEvent.writeOutStatus e,
               PollEvent.writeOutSuccessOrFailure (successOrFailurePin e),
               PollEvent.finishAndTriggerIf true]),
             finalActionOf a e r, true) := by
  induction pre with
  | nil =>
    rintro ⟨⟨err0, res0, pq⟩, req, osf, ores, ostat, d, tv⟩ f post e r hv hshape hpre hf
    simp only [initQueueShape] at hshape
    simp only at hv hshape
    subst hv
    cases d with
    | noop =>
      simp only [PartialResultsDelegate.IsBound, if_neg Bool.false_ne_true] at hshape
      subst hshape
      simp [runFrames, hf, applyFrameBackground, foldl_enqueuePartialResult,
        UpdateOperation, DispatchPartialResults, dispatchInvocations,
        PartialResultsDelegate.IsBound, finalActionOf, flatEnq]
    | delegate b =>
      cases b with
      | false =>
        simp only [PartialResultsDelegate.IsBound, if_neg Bool.false_ne_true] at hshape
        subst hshape
        simp [runFrames, hf, applyFrameBackground, foldl_enqueuePartialResult,
          UpdateOperation, DispatchPartialResults, dispatchInvocations,
          PartialResultsDelegate.IsBound, finalActionOf, flatEnq]
      | true =>
        simp only [PartialResultsDelegate.IsBound, if_pos rfl] at hshape
        subst hshape
        simp [runFrames, hf, applyFrameBackground, foldl_enqueuePartialResult,
          UpdateOperation, DispatchPartialResults, dispatchInvocations,
          PartialResultsDelegate.IsBound, finalActionOf, flatEnq]
  | cons g rest ih =>
    rintro ⟨⟨err0, res0, pq⟩, req, osf, ores, ostat, d, tv⟩ f post e r hv hshape hpre hf
    simp only [initQueueShape] at hshape
    simp only at hv hshape
    subst hv
    have hg : g.complete = none := hpre g (List.mem_cons_self _ _)
    have hrest : ∀ x ∈ rest, x.complete = none :=
      fun x hx => hpre x (List.mem_cons_of_mem _ hx)
    cases d with
    | noop =>
      simp only [PartialResultsDelegate.IsBound, if_neg Bool.false_ne_true] at hshape
      subst hshape
      have hrun := ih ⟨⟨err0, res0, none⟩, req, osf, ores, ostat, .noop, true⟩
        f post e r rfl (by simp [initQueueShape, PartialResultsDelegate.IsBound]) hrest hf
      rw [List.cons_append]
      simp [runFrames, hg, applyFrameBackground, foldl_enqueuePartialResult,
        UpdateOperation, DispatchPartialResults] at hrun ⊢
      simp [hrun, PartialResultsDelegate.IsBound, finalActionOf]
    | delegate b =>
      cases b with
      | false =>
        simp only [PartialResultsDelegate.IsBound, if_neg Bool.false_ne_true] at hshape
        subst hshape
        have hrun := ih ⟨⟨err0, res0, none⟩, req, osf, ores, ostat, .delegate false, true⟩
          f post e r rfl (by simp [initQueueShape, PartialResultsDelegate.IsBound]) hrest hf
        rw [List.cons_append]
        simp [runFrames, hg, applyFrameBackground, foldl_enqueuePartialResult,
          UpdateOperation, DispatchPartialResults] at hrun ⊢
        simp [hrun, PartialResultsDelegate.IsBound, finalActionOf]
      | true =>
        simp only [PartialResultsDelegate.IsBound, if_pos rfl] at hshape
        subst hshape
        have hrun := ih ⟨⟨err0, res0, some []⟩, req, osf, ores, ostat, .delegate true, true⟩
          f post e r rfl (by simp [initQueueShape, PartialResultsDelegate.IsBound]) hrest hf
        rw [List.cons_append]
        simp only [PartialResultsDelegate.IsBound, if_pos rfl] at hrun
        simp [runFrames, hg, applyFrameBackground, foldl_enqueuePartialResult,
          UpdateOperation, DispatchPartialResults, drainQueue_false, hrun,
          PartialResultsDelegate.IsBound, finalActionOf, flatEnq_cons,
          List.map_append, List.map_map, Function.comp, List.append_assoc]

theorem initQueueShape_launch_mk [Inhabited α] (request : ρ)
    (d : PartialResultsDelegate) :
    initQueueShape (LaunchThreadedWork (mkThreadedAction request d) : ThreadedAction ρ α) := by
  cases d with
  | noop => rfl
  | delegate b => cases b <;> rfl

theorem traceExecutes_append (l1 l2 : List (PollEvent ρ α)) :
    traceExecutes (l1 ++ l2) = traceExecutes l1 ++ traceExecutes l2 := by
  induction l1 with
  | nil => rfl
  | cons ev rest ih => cases ev <;> simp [traceExecutes, ih]

theorem traceExecutes_map_execute_pair (req : ρ) (invs : List (α × Bool)) :
    traceExecutes (invs.map (fun p => PollEvent.execute req p.1 p.2)) = invs := by
  induction invs with
  | nil => rfl
  | cons p rest ih => simp [traceExecutes, ih]

theorem traceExecutes_map_execute_false (req : ρ) (l : List α) :
    traceExecutes (l.map (fun x => PollEvent.execute req x false)) =
      l.map (fun x => (x, false)) := by
  induction l with
  | nil => rfl
  | cons x rest ih => simp [traceExecutes, ih]

/-- `Execute` arguments of the trace of a completed run: the early deliveries
(final flag clear) followed by the completion-poll deliveries; the output
writes and the finish signal contribute nothing. -/
theorem traceExecutes_standard [Inhabited α] (req : ρ) (early : List α)
    (invs : List (α × Bool)) (r : α) (e : FAwsGameKitOperationResult) :
    traceExecutes
      ((early.map (fun x => PollEvent.execute req x false)) ++
       ((invs.map (fun p => PollEvent.execute req p.1 p.2)) ++
        [PollEvent.writeOutResults r, PollEvent.writeOutStatus e,
         PollEvent.writeOutSuccessOrFailure (successOrFailurePin e),
         PollEvent.finishAndTriggerIf true])) =
      early.map (fun x => (x, false)) ++ invs := by
  simp [traceExecutes_append, traceExecutes_map_execute_pair,
    traceExecutes_map_execute_false, traceExecutes]

theorem applyFrameBackground_isSome (st : TAwsGameKitInternalActionState α)
    (f : Frame α) :
    (applyFrameBackground st f).PartialResultsQueue.isSome =
      st.PartialResultsQueue.isSome := by
  cases hc : f.complete <;>
    simp [applyFrameBackground, foldl_enqueuePartialResult, hc]

/-- On a valid handle and a queue matching the delegate, a poll always
succeeds and preserves both properties. -/
theorem UpdateOperation_isOk [Inhabited α] (isReady : Bool) (a : ThreadedAction ρ α)
    (hv : a.ThreadedResultValid = true)
    (hq : a.ThreadedState.PartialResultsQueue.isSome = a.PartialResultsDelegate.IsBound) :
    ∃ evs a', UpdateOperation isReady a = .ok (evs, a') ∧
      a'.ThreadedResultValid = true ∧
      a'.ThreadedState.PartialResultsQueue.isSome = a'.PartialResultsDelegate.IsBound := by
  cases isReady with
  | false =>
    refine ⟨_, _, UpdateOperation_false_eq a hv hq, by simpa using hv, ?_⟩
    cases hb : a.PartialResultsDelegate.IsBound
    · simp only [hb] at hq
      simp [hb, hq]
    · simp [hb]
  | true =>
    refine ⟨_, _, UpdateOperation_true_eq a hv hq, by simpa using hv, ?_⟩
    cases hb : a.PartialResultsDelegate.IsBound
    · simp only [hb] at hq
      simp [hb, hq]
    · simp [hb]

theorem runFrames_isOk [Inhabited α] (frames : List (Frame α)) :
    ∀ (a : ThreadedAction ρ α) (ready : Bool),
      a.ThreadedResultValid = true →
      a.ThreadedState.PartialResultsQueue.isSome = a.PartialResultsDelegate.IsBound →
      ∃ p, runFrames a ready frames = .ok p := by
  induction frames with
  | nil => intro a ready hv hq; exact ⟨_, rfl⟩
  | cons f rest ih =>
    intro a ready hv hq
    have hq1 : ({ a with ThreadedState := applyFrameBackground a.ThreadedState f } :
        ThreadedAction ρ α).ThreadedState.PartialResultsQueue.isSome =
        ({ a with ThreadedState := applyFrameBackground a.ThreadedState f } :
        ThreadedAction ρ α).PartialResultsDelegate.IsBound := by
      simpa [applyFrameBackground_isSome] using hq
    obtain ⟨evs, a2, hupd, hv2, hq2⟩ :=
      UpdateOperation_isOk (ready || f.complete.isSome)
        { a with ThreadedState := applyFrameBackground a.ThreadedState f } hv hq1
    obtain ⟨p2, hp2⟩ := ih a2 (ready || f.complete.isSome) hv2 hq2
    cases hrd : (ready || f.complete.isSome) with
    | true =>
      rw [hrd] at hupd
      simp [runFrames, hrd, hupd]
    | false =>
      rw [hrd] at hupd hp2
      simp [runFrames, hrd, hupd, hp2]

theorem map_fst_pairFalse (l : List α) :
    (l.map (fun x => (x, false))).map Prod.fst = l := by
  induction l with
  | nil => rfl
  | cons x rest ih => simp [ih]

theorem map_snd_pairFalse (l : List α) :
    (l.map (fun x => (x, false))).map Prod.snd = List.replicate l.length false := by
  induction l with
  | nil => rfl
  | cons x rest ih => simp [ih, List.replicate_succ]

theorem filter_snd_pairFalse (l : List α) :
    (l.map (fun x => (x, false))).filter (fun p => p.2) = [] := by
  induction l with
  | nil => rfl
  | cons x rest ih => simp [ih]

theorem countEvents_append (p : PollEvent ρ α → Bool) (l1 l2 : List (PollEvent ρ α)) :
    countEvents p (l1 ++ l2) = countEvents p l1 + countEvents p l2 := by
  simp [countEvents, List.filter_append]

theorem countEvents_map_eq_zero {β : Type} (p : PollEvent ρ α → Bool)
    (f : β → PollEvent ρ α) (hp : ∀ y, p (f y) = false) (l : List β) :
    countEvents p (l.map f) = 0 := by
  induction l with
  | nil => rfl
  | cons y rest ih =>
    simp only [List.map_cons, countEvents, List.filter_cons, hp y] at ih ⊢
    simpa using ih

theorem replicate_false_append_true (n m : Nat) :
    List.replicate n false ++ (List.replicate m false ++ [true]) =
      List.replicate ((n + (m + 1)) - 1) false ++ [true] := by
  rw [← List.append_assoc, ← List.replicate_add]
  congr 2

/-! ## Claims -/

/-- **C1.** For every poll of a threaded action via `UpdateOperation` (on a
valid task handle with the queue matching the delegate, so no `check` fires):
if the background task's completion flag is not set, the poll only drains the
partial results that currently exist — the delegate calls are the only events
and nothing but the queue changes; if the completion flag is set, the poll
drains all remaining partial results, then copies the final result value, the
status value, and the success/failure pin into the output slots, and then
signals the host scheduler with `FinishAndTriggerIf true`, exactly in that
order. -/
theorem updateOperation_poll_contract [Inhabited α] (a : ThreadedAction ρ α)
    (hv : a.ThreadedResultValid = true)
    (hq : a.ThreadedState.PartialResultsQueue.isSome = a.PartialResultsDelegate.IsBound) :
    UpdateOperation false a =
      .ok ((dispatchInvocations a.PartialResultsDelegate false
              (currentQueue a.ThreadedState)).map
             (fun p => PollEvent.execute a.InRequest p.1 p.2),
           { a with ThreadedState :=
               { a.ThreadedState with PartialResultsQueue :=
                   if a.PartialResultsDelegate.IsBound then some []
                   else a.ThreadedState.PartialResultsQueue } }) ∧
    UpdateOperation true a =
      .ok ((dispatchInvocations a.PartialResultsDelegate true
              (currentQueue a.ThreadedState)).map
             (fun p => PollEvent.execute a.InRequest p.1 p.2) ++
           [PollEvent.writeOutResults a.ThreadedState.Results,
            PollEvent.writeOutStatus a.ThreadedState.Err,
            PollEvent.writeOutSuccessOrFailure (successOrFailurePin a.ThreadedState.Err),
            PollEvent.finishAndTriggerIf true],
           { a with
               ThreadedState :=
                 { a.ThreadedState with PartialResultsQueue :=
                     if a.PartialResultsDelegate.IsBound then some []
                     else a.ThreadedState.PartialResultsQueue },
               OutResults := a.ThreadedState.Results,
               OutStatus := a.ThreadedState.Err,
               OutSuccessOrFailure := successOrFailurePin a.ThreadedState.Err }) :=
  ⟨UpdateOperation_false_eq a hv hq, UpdateOperation_true_eq a hv hq⟩

/-- Witness for C1: a concrete bound-delegate action with two queued partial
results, polled once incomplete and once complete. -/
theorem updateOperation_poll_contract_witness :
    UpdateOperation false
        (⟨⟨⟨3⟩, 7, some [4, 5]⟩, 2, .OnSuccess, 0, ⟨0⟩, .delegate true, true⟩ :
          ThreadedAction Nat Nat) =
      .ok ([.execute 2 4 false, .execute 2 5 false],
           ⟨⟨⟨3⟩, 7, some []⟩, 2, .OnSuccess, 0, ⟨0⟩, .delegate true, true⟩) ∧
    UpdateOperation true
        (⟨⟨⟨3⟩, 7, some [4, 5]⟩, 2, .OnSuccess, 0, ⟨0⟩, .delegate true, true⟩ :
          ThreadedAction Nat Nat) =
      .ok ([.execute 2 4 false, .execute 2 5 true, .writeOutResults 7,
            .writeOutStatus ⟨3⟩, .writeOutSuccessOrFailure .OnFailure,
            .finishAndTriggerIf true],
           ⟨⟨⟨3⟩, 7, some []⟩, 2, .OnFailure, 7, ⟨3⟩, .delegate true, true⟩) :=
  updateOperation_poll_contract
    (⟨⟨⟨3⟩, 7, some [4, 5]⟩, 2, .OnSuccess, 0, ⟨0⟩, .delegate true, true⟩ :
      ThreadedAction Nat Nat) rfl rfl

/-- **C4.** For every completing threaded action, the error is surfaced as the
operation-result value `Err` copied into the status output, and the
success/failure pin is selected from it: `OnSuccess` iff the stored status
code equals `GAMEKIT_SUCCESS`, `OnFailure` otherwise. -/
theorem completion_branches_on_gamekit_success [Inhabited α]
    (a : ThreadedAction ρ α) (hv : a.ThreadedResultValid = true)
    (hq : a.ThreadedState.PartialResultsQueue.isSome = a.PartialResultsDelegate.IsBound) :
    ∃ evs a', UpdateOperation true a = .ok (evs, a') ∧
      a'.OutStatus = a.ThreadedState.Err ∧
      (a'.OutSuccessOrFailure = .OnSuccess ↔
        a.ThreadedState.Err.Status = GAMEKIT_SUCCESS) ∧
      (a'.OutSuccessOrFailure = .OnFailure ↔
        a.ThreadedState.Err.Status ≠ GAMEKIT_SUCCESS) := by
  refine ⟨_, _, UpdateOperation_true_eq a hv hq, rfl, ?_, ?_⟩ <;>
    by_cases h : a.ThreadedState.Err.Status = GAMEKIT_SUCCESS <;>
      simp [successOrFailurePin, h]

/-- Witness for C4: a completing action with failing status 3. -/
theorem completion_branches_on_gamekit_success_witness :
    ∃ evs a',
      UpdateOperation true
          (⟨⟨⟨3⟩, 7, some [4, 5]⟩, 2, .OnSuccess, 0, ⟨0⟩, .delegate true, true⟩ :
            ThreadedAction Nat Nat) = .ok (evs, a') ∧
      a'.OutStatus = ⟨3⟩ ∧
      (a'.OutSuccessOrFailure = .OnSuccess ↔ (3 : Nat) = GAMEKIT_SUCCESS) ∧
      (a'.OutSuccessOrFailure = .OnFailure ↔ (3 : Nat) ≠ GAMEKIT_SUCCESS) :=
  completion_branches_on_gamekit_success
    (⟨⟨⟨3⟩, 7, some [4, 5]⟩, 2, .OnSuccess, 0, ⟨0⟩, .delegate true, true⟩ :
      ThreadedAction Nat Nat) rfl rfl

/-- **C5.** The incremental-results queue is allocated at construction iff a
partial-results delegate is registered and bound (`FNoopStruct` or an unbound
delegate never allocates it), and the correspondence between queue presence
and delegate boundness is preserved by every poll and by the background
thread's activity between polls. -/
theorem queue_allocation_matches_delegate [Inhabited α] :
    (∀ (request : ρ) (d : PartialResultsDelegate),
      ((mkThreadedAction request d : ThreadedAction ρ α)).ThreadedState.PartialResultsQueue.isSome =
        d.IsBound) ∧
    (∀ (a : ThreadedAction ρ α) (isReady : Bool) (evs : List (PollEvent ρ α))
       (a' : ThreadedAction ρ α),
      a.ThreadedState.PartialResultsQueue.isSome = a.PartialResultsDelegate.IsBound →
      UpdateOperation isReady a = .ok (evs, a') →
      a'.PartialResultsDelegate = a.PartialResultsDelegate ∧
      a'.ThreadedState.PartialResultsQueue.isSome = a'.PartialResultsDelegate.IsBound) ∧
    (∀ (a : ThreadedAction ρ α) (f : Frame α),
      ({ a with ThreadedState := applyFrameBackground a.ThreadedState f } :
        ThreadedAction ρ α).ThreadedState.PartialResultsQueue.isSome =
        a.ThreadedState.PartialResultsQueue.isSome) := by
  refine ⟨?_, ?_, ?_⟩
  · intro request d
    cases d with
    | noop => rfl
    | delegate b => cases b <;> rfl
  · intro a isReady evs a' hq h
    have hv : a.ThreadedResultValid = true := by
      cases hvv : a.ThreadedResultValid with
      | false => simp [UpdateOperation, hvv] at h
      | true => rfl
    cases isReady with
    | false =>
      rw [UpdateOperation_false_eq a hv hq] at h
      simp only [Except.ok.injEq, Prod.mk.injEq] at h
      obtain ⟨-, rfl⟩ := h
      refine ⟨rfl, ?_⟩
      cases hb : a.PartialResultsDelegate.IsBound
      · simp only [hb] at hq
        simp [hb, hq]
      · simp [hb]
    | true =>
      rw [UpdateOperation_true_eq a hv hq] at h
      simp only [Except.ok.injEq, Prod.mk.injEq] at h
      obtain ⟨-, rfl⟩ := h
      refine ⟨rfl, ?_⟩
      cases hb : a.PartialResultsDelegate.IsBound
      · simp only [hb] at hq
        simp [hb, hq]
      · simp [hb]
  · intro a f
    simp [applyFrameBackground_isSome]

/-- Witness for C5: a noop-delegate construction, one concrete successful
poll, and one concrete background frame. -/
theorem queue_allocation_matches_delegate_witness :
    ((mkThreadedAction (0 : Nat) .noop : ThreadedAction Nat Nat)).ThreadedState.PartialResultsQueue.isSome =
      PartialResultsDelegate.IsBound .noop ∧
    ((⟨⟨⟨3⟩, 7, some []⟩, 2, .OnSuccess, 0, ⟨0⟩, .delegate true, true⟩ :
        ThreadedAction Nat Nat).PartialResultsDelegate = .delegate true ∧
      (⟨⟨⟨3⟩, 7, some []⟩, 2, .OnSuccess, 0, ⟨0⟩, .delegate true, true⟩ :
        ThreadedAction Nat Nat).ThreadedState.PartialResultsQueue.isSome =
        PartialResultsDelegate.IsBound (.delegate true)) ∧
    (({ (⟨⟨⟨3⟩, 7, some [4, 5]⟩, 2, .OnSuccess, 0, ⟨0⟩, .delegate true, true⟩ :
          ThreadedAction Nat Nat) with
        ThreadedState :=
          applyFrameBackground
            (⟨⟨3⟩, 7, some [4, 5]⟩ : TAwsGameKitInternalActionState Nat)
            ⟨[1], none⟩ } : ThreadedAction Nat Nat).ThreadedState.PartialResultsQueue.isSome =
      (⟨⟨⟨3⟩, 7, some [4, 5]⟩, 2, .OnSuccess, 0, ⟨0⟩, .delegate true, true⟩ :
        ThreadedAction Nat Nat).ThreadedState.PartialResultsQueue.isSome) :=
  ⟨queue_allocation_matches_delegate.1 0 .noop,
   queue_allocation_matches_delegate.2.1
     (⟨⟨⟨3⟩, 7, some [4, 5]⟩, 2, .OnSuccess, 0, ⟨0⟩, .delegate true, true⟩ :
       ThreadedAction Nat Nat) false
     [.execute 2 4 false, .execute 2 5 false]
     (⟨⟨⟨3⟩, 7, some []⟩, 2, .OnSuccess, 0, ⟨0⟩, .delegate true, true⟩ :
       ThreadedAction Nat Nat) rfl rfl,
   queue_allocation_matches_delegate.2.2
     (⟨⟨⟨3⟩, 7, some [4, 5]⟩, 2, .OnSuccess, 0, ⟨0⟩, .delegate true, true⟩ :
       ThreadedAction Nat Nat) ⟨[1], none⟩⟩

/-- **C6.** `getLibraryFilename` returns a per-platform library basename with
no file extension: `"aws-gamekit-authentication"` on Windows,
`"libaws-gamekit-authentication"` on Mac, and the empty string on every other
platform. -/
theorem getLibraryFilename_per_platform :
    getLibraryFilename .windows = "aws-gamekit-authentication" ∧
    getLibraryFilename .mac = "libaws-gamekit-authentication" ∧
    getLibraryFilename .linux = "" ∧
    getLibraryFilename .ios = "" ∧
    getLibraryFilename .android = "" ∧
    getLibraryFilename .other = "" ∧
    ∀ p : Platform, '.' ∉ (getLibraryFilename p).toList := by
  refine ⟨rfl, rfl, rfl, rfl, rfl, rfl, ?_⟩
  intro p
  cases p <;> decide

/-- **C7.** `UpdateOperation` treats an invalid background task handle as a
fatal check on every poll; once `LaunchThreadedWork` has been called right
after construction, that failure branch is unreachable on every poll (every
run of polls succeeds). -/
theorem threaded_handle_check_unreachable_after_launch [Inhabited α] :
    (∀ (isReady : Bool) (a : ThreadedAction ρ α),
      UpdateOperation isReady { a with ThreadedResultValid := false } =
        .error CheckFailure.invalidThreadedResult) ∧
    (∀ (request : ρ) (d : PartialResultsDelegate) (frames : List (Frame α)),
      ∃ p, runFrames (LaunchThreadedWork (mkThreadedAction request d)) false frames =
        .ok p) := by
  constructor
  · intro isReady a
    simp [UpdateOperation]
  · intro request d frames
    refine runFrames_isOk frames _ false rfl ?_
    cases d with
    | noop => rfl
    | delegate b => cases b <;> rfl

/-- **C8.** The session-manager wrapper resolves, by name and with a fixed C
calling convention, exactly the six native entry points: instance create,
settings-loaded check, config reload from file, config reload from contents,
token set, and instance release — and no other function-pointer handle is
defined on the wrapper. -/
theorem sessionManager_entry_points_exactly_six :
    sessionManagerFunctionHandles.map FunctionPointerHandle.name =
      ["GameKitSessionManagerInstanceCreate",
       "GameKitSessionManagerAreSettingsLoaded",
       "GameKitSessionManagerReloadConfigFile",
       "GameKitSessionManagerReloadConfigContents",
       "GameKitSessionManagerSetToken",
       "GameKitSessionManagerInstanceRelease"] ∧
    sessionManagerFunctionHandles.length = 6 ∧
    (sessionManagerFunctionHandles.map FunctionPointerHandle.name).Nodup ∧
    sessionManagerFunctionHandles.all
      (fun h => h.resolvedByName && h.callingConvention == "C") = true :=
  ⟨rfl, rfl, by decide, rfl⟩

/-- **C9.** `InternalAwsGameKitThreadedActionSafeOutputRef` (when its sanity
checks pass): an output reference inside the persistent blueprint frame is
returned unchanged; an out-of-frame (stack) reference is redirected to the
static junk variable, so a later deferred write through the returned address
never modifies the caller's original out-of-frame variable. -/
theorem safeOutputRef_redirects_out_of_frame_writes
    (persistentFrame persistentFrameSize junkAddr stackAddr outAddr : Nat)
    (hframe : persistentFrame ≠ 0) (hpos : 0 < persistentFrameSize)
    (hsane : persistentFrameSize < ExtremelyLargeBPFrameSize) :
    (persistentFrame ≤ outAddr ∧ outAddr < persistentFrame + persistentFrameSize →
      InternalAwsGameKitThreadedActionSafeOutputRef persistentFrame
        persistentFrameSize junkAddr stackAddr outAddr = some outAddr) ∧
    (¬(persistentFrame ≤ outAddr ∧ outAddr < persistentFrame + persistentFrameSize) →
      (outAddr + 2 ^ 64 - stackAddr) % 2 ^ 64 < NearbyStackAddressLimit →
      junkAddr ≠ outAddr →
      InternalAwsGameKitThreadedActionSafeOutputRef persistentFrame
        persistentFrameSize junkAddr stackAddr outAddr = some junkAddr ∧
      ∀ (mem : Nat → Int) (v : Int), writeMem mem junkAddr v outAddr = mem outAddr) := by
  constructor
  · intro hin
    simp [InternalAwsGameKitThreadedActionSafeOutputRef, hframe, hpos, hsane, hin]
  · intro hout hnear hne
    constructor
    · simp [InternalAwsGameKitThreadedActionSafeOutputRef, hframe, hpos, hsane, hout]
      simpa using hnear
    · intro mem v
      simp [writeMem, if_neg (Ne.symm hne)]

/-- Witness for C9: a frame at 4096 of size 16; an in-frame reference at 4100
is returned unchanged; a stack reference at 500005 (near `stackobj` at
500000) is redirected to the junk variable at 90000 and writes through it do
not touch 500005. -/
theorem safeOutputRef_redirects_out_of_frame_writes_witness :
    (InternalAwsGameKitThreadedActionSafeOutputRef 4096 16 90000 500000 4100 =
      some 4100) ∧
    (InternalAwsGameKitThreadedActionSafeOutputRef 4096 16 90000 500000 500005 =
      some 90000 ∧
     ∀ (mem : Nat → Int) (v : Int), writeMem mem 90000 v 500005 = mem 500005) :=
  ⟨(safeOutputRef_redirects_out_of_frame_writes 4096 16 90000 500000 4100
      (by decide) (by decide) (by decide)).1 (by decide),
   (safeOutputRef_redirects_out_of_frame_writes 4096 16 90000 500000 500005
      (by decide) (by decide) (by decide)).2 (by decide) (by decide) (by decide)⟩

/-- **C2.** For every sequence of incremental results enqueued before the
background task completes and a bound partial-results delegate: every
enqueued result is delivered via `Execute`, in enqueue (FIFO) order (possibly
followed by one final default-constructed delivery), and the completion flag
passed to the delegate is true only on the last delivery. -/
theorem partial_results_delivered_fifo_final_flag_last [Inhabited α]
    (request : ρ) (pre : List (Frame α)) (f : Frame α)
    (e : FAwsGameKitOperationResult) (r : α)
    (hpre : ∀ g ∈ pre, g.complete = none) (hf : f.complete = some (e, r)) :
    ∃ tr a',
      runFrames (LaunchThreadedWork (mkThreadedAction request (.delegate true)))
        false (pre ++ [f]) = .ok (tr, a', true) ∧
      ((traceExecutes tr).map Prod.fst = flatEnq pre ++ f.enqueues ∨
       (traceExecutes tr).map Prod.fst =
         (flatEnq pre ++ f.enqueues) ++ [(default : α)]) ∧
      (traceExecutes tr).map Prod.snd =
        List.replicate ((traceExecutes tr).length - 1) false ++ [true] := by
  have h := runFrames_master pre
    (LaunchThreadedWork (mkThreadedAction request (.delegate true))) f [] e r
    rfl (initQueueShape_launch_mk request _) hpre hf
  have key : ∀ tr : List (PollEvent ρ α),
      tr = (flatEnq pre).map (fun x => PollEvent.execute request x false) ++
        ((dispatchInvocations (.delegate true : PartialResultsDelegate) true
            f.enqueues).map (fun p => PollEvent.execute request p.1 p.2) ++
         [PollEvent.writeOutResults r, PollEvent.writeOutStatus e,
          PollEvent.writeOutSuccessOrFailure (successOrFailurePin e),
          PollEvent.finishAndTriggerIf true]) →
      (((traceExecutes tr).map Prod.fst = flatEnq pre ++ f.enqueues ∨
        (traceExecutes tr).map Prod.fst =
          (flatEnq pre ++ f.enqueues) ++ [(default : α)]) ∧
       (traceExecutes tr).map Prod.snd =
         List.replicate ((traceExecutes tr).length - 1) false ++ [true]) := by
    intro tr htr
    subst htr
    rw [traceExecutes_standard]
    rcases List.eq_nil_or_concat' f.enqueues with hq | ⟨L, y, hq⟩
    · rw [hq, dispatchInvocations_true_nil (.delegate true) rfl]
      constructor
      · right
        rw [List.map_append, map_fst_pairFalse]
        simp
      · have hl : (((flatEnq pre).map fun x => (x, false)) ++
            [((default : α), true)]).length = (flatEnq pre).length + 1 := by
          simp
        rw [hl, List.map_append, map_snd_pairFalse]
        exact replicate_false_append_true (flatEnq pre).length 0
    · rw [hq, dispatchInvocations_true_concat (.delegate true) rfl]
      constructor
      · left
        rw [List.map_append, List.map_append, map_fst_pairFalse, map_fst_pairFalse]
        simp
      · have hl : (((flatEnq pre).map fun x => (x, false)) ++
            ((L.map fun x => (x, false)) ++ [(y, true)])).length =
            (flatEnq pre).length + (L.length + 1) := by
          simp
        rw [hl, List.map_append, List.map_append, map_snd_pairFalse, map_snd_pairFalse]
        exact replicate_false_append_true _ _
  exact ⟨_, _, h, key _ rfl⟩

/-- Witness for C2: one pre-completion frame enqueueing 4, then a completing
frame enqueueing 5; deliveries are 4 then 5, the flag true only on the last. -/
theorem partial_results_delivered_fifo_final_flag_last_witness :
    ∃ tr a',
      runFrames (LaunchThreadedWork (mkThreadedAction (2 : Nat)
          (.delegate true) : ThreadedAction Nat Nat)) false
        ([⟨[4], none⟩] ++ [⟨[5], some (⟨1⟩, 9)⟩]) = .ok (tr, a', true) ∧
      ((traceExecutes tr).map Prod.fst = flatEnq [⟨[4], none⟩] ++ [5] ∨
       (traceExecutes tr).map Prod.fst =
         (flatEnq [⟨[4], none⟩] ++ [5]) ++ [(default : Nat)]) ∧
      (traceExecutes tr).map Prod.snd =
        List.replicate ((traceExecutes tr).length - 1) false ++ [true] :=
  partial_results_delivered_fifo_final_flag_last 2 [⟨[4], none⟩]
    ⟨[5], some (⟨1⟩, 9)⟩ ⟨1⟩ 9 (by decide) rfl

/-- **C3.** The completed background task's final result is observed by the
poller exactly once: the run ends at the completion poll (frames after it are
never polled), and the trace carries exactly one write of each output and one
scheduler completion signal. -/
theorem final_result_observed_exactly_once [Inhabited α] (request : ρ)
    (d : PartialResultsDelegate) (pre : List (Frame α)) (f : Frame α)
    (post : List (Frame α)) (e : FAwsGameKitOperationResult) (r : α)
    (hpre : ∀ g ∈ pre, g.complete = none) (hf : f.complete = some (e, r)) :
    ∃ tr a',
      runFrames (LaunchThreadedWork (mkThreadedAction request d)) false
        (pre ++ f :: post) = .ok (tr, a', true) ∧
      runFrames (LaunchThreadedWork (mkThreadedAction request d)) false
        (pre ++ f :: post) =
        runFrames (LaunchThreadedWork (mkThreadedAction request d)) false
          (pre ++ [f]) ∧
      countEvents isFinishEvent tr = 1 ∧
      countEvents isWriteResultsEvent tr = 1 ∧
      countEvents isWriteStatusEvent tr = 1 ∧
      countEvents isWritePinEvent tr = 1 := by
  have h1 := runFrames_master pre (LaunchThreadedWork (mkThreadedAction request d))
    f post e r rfl (initQueueShape_launch_mk request d) hpre hf
  have h2 := runFrames_master pre (LaunchThreadedWork (mkThreadedAction request d))
    f [] e r rfl (initQueueShape_launch_mk request d) hpre hf
  refine ⟨_, _, h1, h1.trans h2.symm, ?_, ?_, ?_, ?_⟩ <;>
  · rw [countEvents_append, countEvents_append,
      countEvents_map_eq_zero _ _ (fun y => rfl),
      countEvents_map_eq_zero _ _ (fun y => rfl)]
    rfl

/-- Witness for C3: a noop-delegate action completing in the first frame with
a post frame that is never polled. -/
theorem final_result_observed_exactly_once_witness :
    ∃ tr a',
      runFrames (LaunchThreadedWork (mkThreadedAction (2 : Nat)
          .noop : ThreadedAction Nat Nat)) false
        ([] ++ (⟨[], some (⟨0⟩, 1)⟩ : Frame Nat) :: [⟨[7], none⟩]) =
        .ok (tr, a', true) ∧
      runFrames (LaunchThreadedWork (mkThreadedAction (2 : Nat)
          .noop : ThreadedAction Nat Nat)) false
        ([] ++ (⟨[], some (⟨0⟩, 1)⟩ : Frame Nat) :: [⟨[7], none⟩]) =
        runFrames (LaunchThreadedWork (mkThreadedAction (2 : Nat)
          .noop : ThreadedAction Nat Nat)) false
        ([] ++ [(⟨[], some (⟨0⟩, 1)⟩ : Frame Nat)]) ∧
      countEvents isFinishEvent tr = 1 ∧
      countEvents isWriteResultsEvent tr = 1 ∧
      countEvents isWriteStatusEvent tr = 1 ∧
      countEvents isWritePinEvent tr = 1 :=
  final_result_observed_exactly_once 2 .noop [] ⟨[], some (⟨0⟩, 1)⟩
    [⟨[7], none⟩] ⟨0⟩ 1 (by decide) rfl

/-- **C10.** A bound partial-results delegate receives exactly one invocation
with the final flag true; in particular, when zero incremental results were
ever enqueued, the delegate is invoked once with a default-constructed result
and the final flag true. -/
theorem bound_delegate_single_final_invocation [Inhabited α] (request : ρ)
    (pre : List (Frame α)) (f : Frame α) (e : FAwsGameKitOperationResult)
    (r : α) (hpre : ∀ g ∈ pre, g.complete = none)
    (hf : f.complete = some (e, r)) :
    ∃ tr a',
      runFrames (LaunchThreadedWork (mkThreadedAction request (.delegate true)))
        false (pre ++ [f]) = .ok (tr, a', true) ∧
      ((traceExecutes tr).filter (fun p => p.2)).length = 1 ∧
      (flatEnq pre = [] → f.enqueues = [] →
        traceExecutes tr = [((default : α), true)]) := by
  have h := runFrames_master pre
    (LaunchThreadedWork (mkThreadedAction request (.delegate true))) f [] e r
    rfl (initQueueShape_launch_mk request _) hpre hf
  have key : ∀ tr : List (PollEvent ρ α),
      tr = (flatEnq pre).map (fun x => PollEvent.execute request x false) ++
        ((dispatchInvocations (.delegate true : PartialResultsDelegate) true
            f.enqueues).map (fun p => PollEvent.execute request p.1 p.2) ++
         [PollEvent.writeOutResults r, PollEvent.writeOutStatus e,
          PollEvent.writeOutSuccessOrFailure (successOrFailurePin e),
          PollEvent.finishAndTriggerIf true]) →
      ((traceExecutes tr).filter (fun p => p.2)).length = 1 ∧
      (flatEnq pre = [] → f.enqueues = [] →
        traceExecutes tr = [((default : α), true)]) := by
    intro tr htr
    subst htr
    rw [traceExecutes_standard]
    constructor
    · rcases List.eq_nil_or_concat' f.enqueues with hq | ⟨L, y, hq⟩
      · rw [hq, dispatchInvocations_true_nil (.delegate true) rfl]
        simp [List.filter_append, filter_snd_pairFalse]
      · rw [hq, dispatchInvocations_true_concat (.delegate true) rfl]
        simp [List.filter_append, filter_snd_pairFalse]
    · intro h1 h2
      rw [h1, h2, dispatchInvocations_true_nil (.delegate true) rfl]
      simp
  exact ⟨_, _, h, key _ rfl⟩

/-- Witness for C10: a bound delegate whose task completes with zero enqueued
results; the single delivery is `(default, true)`. -/
theorem bound_delegate_single_final_invocation_witness :
    ∃ tr a',
      runFrames (LaunchThreadedWork (mkThreadedAction (2 : Nat)
          (.delegate true) : ThreadedAction Nat Nat)) false
        ([] ++ [⟨[], some (⟨0⟩, 3)⟩]) = .ok (tr, a', true) ∧
      ((traceExecutes tr).filter (fun p => p.2)).length = 1 ∧
      (flatEnq ([] : List (Frame Nat)) = [] →
        (⟨[], some (⟨0⟩, 3)⟩ : Frame Nat).enqueues = [] →
        traceExecutes tr = [((default : Nat), true)]) :=
  bound_delegate_single_final_invocation 2 [] ⟨[], some (⟨0⟩, 3)⟩ ⟨0⟩ 3
    (by decide) rfl

end AwsGameKit
